import Mathlib

/-!
Verification development for the `codelab_adapter_client` repository.

The development shallowly embeds the parts of the source that the checked
claims are about:

* the msgpack wire codec used by `MessageNode.publish_payload` and
  `MessageNode.receive_loop` (`packb` / `unpackb`, modelling
  `msgpack.packb(payload, use_bin_type=True)` and
  `msgpack.unpackb(data, raw=False)` on the value kinds the payloads use);
* the receive loop of `MessageNode.receive_loop` as a step function over an
  explicit schedule of inbound socket events;
* topic type-checking in `MessageNode.set_subscriber_topic` and
  `MessageNode.publish_payload`;
* the handler registry (`AdapterNode.add_handler` / `get_handlers`), the
  dispatch logic of `AdapterNode.message_handle`, and `AdapterNode.publish`;
* the `TokenBucket` rate limiter from `utils.py`, with wall-clock time passed
  explicitly as a rational number.

Python machine floats appearing in the codec are modelled by their 64-bit
IEEE-754 bit patterns (msgpack serializes exactly those 8 bytes); `TokenBucket`
arithmetic is modelled over `ℚ`.
-/

namespace CodelabAdapter

/-! ## Big-endian byte helpers

msgpack stores multi-byte integers and length fields big-endian.  `beBytes k n`
is the `k`-byte big-endian encoding of the low `8*k` bits of `n`; `readBE k`
reads `k` bytes back. -/

def beBytes : Nat → Nat → List Nat
  | 0, _ => []
  | k + 1, n => (n / 256 ^ k) % 256 :: beBytes k n

def readBE : Nat → List Nat → Option (Nat × List Nat)
  | 0, bs => some (0, bs)
  | k + 1, b :: bs => (readBE k bs).map (fun p => (b * 256 ^ k + p.1, p.2))
  | _ + 1, [] => none

/-- Take exactly `n` bytes off the front of a byte list. -/
def takeExact : Nat → List Nat → Option (List Nat × List Nat)
  | 0, bs => some ([], bs)
  | n + 1, b :: bs => (takeExact n bs).map (fun p => (b :: p.1, p.2))
  | _ + 1, [] => none

theorem beBytes_length (k n : Nat) : (beBytes k n).length = k := by
  induction k generalizing n with
  | zero => rfl
  | succ k ih => simp [beBytes, ih]

theorem readBE_beBytes (k : Nat) (n : Nat) (rest : List Nat) :
    readBE k (beBytes k n ++ rest) = some (n % 256 ^ k, rest) := by
  induction k generalizing n with
  | zero => simp [beBytes, readBE, Nat.mod_one]
  | succ k ih =>
    have e : readBE (k + 1) (beBytes (k + 1) n ++ rest)
        = (readBE k (beBytes k n ++ rest)).map
            (fun p => (n / 256 ^ k % 256 * 256 ^ k + p.1, p.2)) := rfl
    rw [e, ih]
    have h : n % (256 ^ k * 256) = n % 256 ^ k + 256 ^ k * (n / 256 ^ k % 256) :=
      Nat.mod_mul
    simp only [Option.map_some']
    rw [pow_succ, h]
    ring_nf

theorem takeExact_append (xs rest : List Nat) :
    takeExact xs.length (xs ++ rest) = some (xs, rest) := by
  induction xs with
  | nil => rfl
  | cons b bs ih => simp [takeExact, ih]

/-! ## The payload value model

`MValue` is the space of Python payload values that the node serializes:
`None`, booleans, (unbounded) integers, machine floats (as their 64-bit
IEEE-754 bit pattern), strings (as their UTF-8 byte sequence), lists, and
string-keyed dictionaries (as association lists in insertion order). -/

inductive MValue where
  | nil : MValue
  | bool (b : Bool) : MValue
  | int (i : Int) : MValue
  | float64 (bits : Nat) : MValue
  | str (utf8 : List Nat) : MValue
  | arr (items : List MValue) : MValue
  | map (pairs : List (List Nat × MValue)) : MValue

/-! ## `msgpack.packb(payload, use_bin_type=True)`

The packer emits the smallest msgpack format for each value, exactly as the
msgpack-python packer invoked by `MessageNode.publish_payload` does, and fails
(`none`) where that packer raises: integers outside `[-2^63, 2^64)` and
strings/collections with at least `2^32` elements. -/

def packInt (i : Int) : Option (List Nat) :=
  if 0 ≤ i then
    if i.toNat ≤ 0x7f then some [i.toNat]
    else if i.toNat ≤ 0xff then some (0xcc :: beBytes 1 i.toNat)
    else if i.toNat ≤ 0xffff then some (0xcd :: beBytes 2 i.toNat)
    else if i.toNat ≤ 0xffffffff then some (0xce :: beBytes 4 i.toNat)
    else if i.toNat ≤ 0xffffffffffffffff then some (0xcf :: beBytes 8 i.toNat)
    else none
  else
    if -0x20 ≤ i then some [(i + 0x100).toNat]
    else if -0x80 ≤ i then some (0xd0 :: beBytes 1 (i + 0x100).toNat)
    else if -0x8000 ≤ i then some (0xd1 :: beBytes 2 (i + 0x10000).toNat)
    else if -0x80000000 ≤ i then some (0xd2 :: beBytes 4 (i + 0x100000000).toNat)
    else if -0x8000000000000000 ≤ i then
      some (0xd3 :: beBytes 8 (i + 0x10000000000000000).toNat)
    else none

def packStrHeader (len : Nat) : Option (List Nat) :=
  if len ≤ 0x1f then some [0xa0 + len]
  else if len ≤ 0xff then some (0xd9 :: beBytes 1 len)
  else if len ≤ 0xffff then some (0xda :: beBytes 2 len)
  else if len ≤ 0xffffffff then some (0xdb :: beBytes 4 len)
  else none

def packArrHeader (count : Nat) : Option (List Nat) :=
  if count ≤ 0xf then some [0x90 + count]
  else if count ≤ 0xffff then some (0xdc :: beBytes 2 count)
  else if count ≤ 0xffffffff then some (0xdd :: beBytes 4 count)
  else none

def packMapHeader (count : Nat) : Option (List Nat) :=
  if count ≤ 0xf then some [0x80 + count]
  else if count ≤ 0xffff then some (0xde :: beBytes 2 count)
  else if count ≤ 0xffffffff then some (0xdf :: beBytes 4 count)
  else none

def packStr (utf8 : List Nat) : Option (List Nat) :=
  (packStrHeader utf8.length).map (· ++ utf8)

mutual

def packb : MValue → Option (List Nat)
  | .nil => some [0xc0]
  | .bool false => some [0xc2]
  | .bool true => some [0xc3]
  | .int i => packInt i
  | .float64 bits => if bits < 2 ^ 64 then some (0xcb :: beBytes 8 bits) else none
  | .str utf8 => packStr utf8
  | .arr items =>
    match packArrHeader items.length, packList items with
    | some header, some body => some (header ++ body)
    | _, _ => none
  | .map pairs =>
    match packMapHeader pairs.length, packPairs pairs with
    | some header, some body => some (header ++ body)
    | _, _ => none

def packList : List MValue → Option (List Nat)
  | [] => some []
  | v :: vs =>
    match packb v, packList vs with
    | some bv, some bvs => some (bv ++ bvs)
    | _, _ => none

def packPairs : List (List Nat × MValue) → Option (List Nat)
  | [] => some []
  | (k, v) :: ps =>
    match packStr k, packb v, packPairs ps with
    | some bk, some bv, some bps => some (bk ++ bv ++ bps)
    | _, _, _ => none

end

/-! ## `msgpack.unpackb(data, raw=False)`

The decoder reads one tagged value after another.  Map bodies are decoded as a
flat run of `2*n` values whose even positions must be strings
(`strict_map_key`, the msgpack-python default); `toStrPairs` regroups them.
Formats never produced for our payload values (`bin`, `ext`, `float32`) and
the reserved tag `0xc1` decode to `none`, mirroring the exceptions the real
unpacker raises there.  `unpackCnt fuel n bs` decodes `n` consecutive values;
`fuel` only bounds the recursion and is in surplus whenever it is at least the
total number of encoded values, which is at most the byte length. -/

def toStrPairs : List MValue → Option (List (List Nat × MValue))
  | [] => some []
  | .str k :: v :: rest => (toStrPairs rest).map (fun ps => (k, v) :: ps)
  | _ => none

/-- Two's-complement reading of `k` bytes holding `m`. -/
def signedOf (k : Nat) (m : Nat) : Int :=
  if m < 2 ^ (8 * k - 1) then (m : Int) else (m : Int) - 2 ^ (8 * k)

def decodeOne (recur : Nat → List Nat → Option (List MValue × List Nat))
    (b : Nat) (rest : List Nat) : Option (MValue × List Nat) :=
  if b ≤ 0x7f then some (.int (b : Int), rest)
  else if b ≤ 0x8f then
    match recur (2 * (b - 0x80)) rest with
    | some (flat, r) => (toStrPairs flat).map (fun ps => (MValue.map ps, r))
    | none => none
  else if b ≤ 0x9f then
    match recur (b - 0x90) rest with
    | some (vs, r) => some (.arr vs, r)
    | none => none
  else if b ≤ 0xbf then (takeExact (b - 0xa0) rest).map (fun p => (.str p.1, p.2))
  else if b = 0xc0 then some (.nil, rest)
  else if b = 0xc2 then some (.bool false, rest)
  else if b = 0xc3 then some (.bool true, rest)
  else if b = 0xcb then (readBE 8 rest).map (fun p => (.float64 p.1, p.2))
  else if b = 0xcc then (readBE 1 rest).map (fun p => (.int (p.1 : Int), p.2))
  else if b = 0xcd then (readBE 2 rest).map (fun p => (.int (p.1 : Int), p.2))
  else if b = 0xce then (readBE 4 rest).map (fun p => (.int (p.1 : Int), p.2))
  else if b = 0xcf then (readBE 8 rest).map (fun p => (.int (p.1 : Int), p.2))
  else if b = 0xd0 then (readBE 1 rest).map (fun p => (.int (signedOf 1 p.1), p.2))
  else if b = 0xd1 then (readBE 2 rest).map (fun p => (.int (signedOf 2 p.1), p.2))
  else if b = 0xd2 then (readBE 4 rest).map (fun p => (.int (signedOf 4 p.1), p.2))
  else if b = 0xd3 then (readBE 8 rest).map (fun p => (.int (signedOf 8 p.1), p.2))
  else if b = 0xd9 then
    match readBE 1 rest with
    | some (len, r) => (takeExact len r).map (fun p => (.str p.1, p.2))
    | none => none
  else if b = 0xda then
    match readBE 2 rest with
    | some (len, r) => (takeExact len r).map (fun p => (.str p.1, p.2))
    | none => none
  else if b = 0xdb then
    match readBE 4 rest with
    | some (len, r) => (takeExact len r).map (fun p => (.str p.1, p.2))
    | none => none
  else if b = 0xdc then
    match readBE 2 rest with
    | some (count, r) =>
      match recur count r with
      | some (vs, r') => some (.arr vs, r')
      | none => none
    | none => none
  else if b = 0xdd then
    match readBE 4 rest with
    | some (count, r) =>
      match recur count r with
      | some (vs, r') => some (.arr vs, r')
      | none => none
    | none => none
  else if b = 0xde then
    match readBE 2 rest with
    | some (count, r) =>
      match recur (2 * count) r with
      | some (flat, r') => (toStrPairs flat).map (fun ps => (MValue.map ps, r'))
      | none => none
    | none => none
  else if b = 0xdf then
    match readBE 4 rest with
    | some (count, r) =>
      match recur (2 * count) r with
      | some (flat, r') => (toStrPairs flat).map (fun ps => (MValue.map ps, r'))
      | none => none
    | none => none
  else if 0xe0 ≤ b ∧ b ≤ 0xff then some (.int ((b : Int) - 0x100), rest)
  else none

def unpackCnt : Nat → Nat → List Nat → Option (List MValue × List Nat)
  | _, 0, bs => some ([], bs)
  | 0, _ + 1, _ => none
  | _ + 1, _ + 1, [] => none
  | fuel + 1, n + 1, b :: rest =>
    match decodeOne (unpackCnt fuel) b rest with
    | some (v, r) =>
      match unpackCnt fuel n r with
      | some (vs, r') => some (v :: vs, r')
      | none => none
    | none => none

/-- The decode operation of the receive loop: a whole-buffer decode that fails
on any malformed input, including trailing bytes (`ExtraData`). -/
def unpackb (bs : List Nat) : Option MValue :=
  match unpackCnt bs.length 1 bs with
  | some ([v], []) => some v
  | _ => none

/-! ## Round-trip infrastructure

`vsize` counts the encoded values inside a payload (map keys included); it
bounds the recursion depth the decoder needs, and every encoded value takes at
least one byte, so the byte length of an encoding is always enough fuel. -/

mutual

def vsize : MValue → Nat
  | .arr items => 1 + vsizeList items
  | .map pairs => 1 + vsizePairs pairs
  | _ => 1

def vsizeList : List MValue → Nat
  | [] => 0
  | v :: vs => vsize v + vsizeList vs

def vsizePairs : List (List Nat × MValue) → Nat
  | [] => 0
  | (_, v) :: ps => 1 + vsize v + vsizePairs ps

end

/-- A map body on the wire is the flat interleaving of keys and values. -/
def flattenPairs : List (List Nat × MValue) → List MValue
  | [] => []
  | (k, v) :: ps => .str k :: v :: flattenPairs ps

theorem vsize_pos (v : MValue) : 1 ≤ vsize v := by
  cases v <;> simp [vsize]

theorem vsizeList_flatten (ps : List (List Nat × MValue)) :
    vsizeList (flattenPairs ps) = vsizePairs ps := by
  induction ps with
  | nil => rfl
  | cons p ps ih =>
    obtain ⟨k, v⟩ := p
    simp [flattenPairs, vsizeList, vsizePairs, vsize, ih]
    omega

theorem length_flatten (ps : List (List Nat × MValue)) :
    (flattenPairs ps).length = 2 * ps.length := by
  induction ps with
  | nil => rfl
  | cons p ps ih =>
    obtain ⟨k, v⟩ := p
    simp [flattenPairs, ih]
    omega

theorem toStrPairs_flatten (ps : List (List Nat × MValue)) :
    toStrPairs (flattenPairs ps) = some ps := by
  induction ps with
  | nil => rfl
  | cons p ps ih =>
    obtain ⟨k, v⟩ := p
    simp [flattenPairs, toStrPairs, ih]

theorem packPairs_eq_packList_flatten (ps : List (List Nat × MValue)) :
    packPairs ps = packList (flattenPairs ps) := by
  induction ps with
  | nil => rfl
  | cons p ps ih =>
    obtain ⟨k, v⟩ := p
    show (match packStr k, packb v, packPairs ps with
      | some bk, some bv, some bps => some (bk ++ bv ++ bps)
      | _, _, _ => none) = _
    rw [ih]
    show _ = (match packb (.str k), packList (v :: flattenPairs ps) with
      | some bv, some bvs => some (bv ++ bvs)
      | _, _ => none)
    show _ = (match packStr k, (match packb v, packList (flattenPairs ps) with
        | some bv, some bvs => some (bv ++ bvs)
        | _, _ => none) with
      | some bv, some bvs => some (bv ++ bvs)
      | _, _ => none)
    cases packStr k <;> cases packb v <;> cases packList (flattenPairs ps) <;>
      simp [List.append_assoc]

/-! Reduction lemmas for `decodeOne`, one per msgpack format. -/

section DecodeOneLemmas

variable (recur : Nat → List Nat → Option (List MValue × List Nat))
variable (rest : List Nat)

theorem decodeOne_posfix (b : Nat) (h : b ≤ 0x7f) :
    decodeOne recur b rest = some (.int (b : Int), rest) := by
  unfold decodeOne
  rw [if_pos h]

theorem decodeOne_negfix (b : Nat) (h1 : 0xe0 ≤ b) (h2 : b ≤ 0xff) :
    decodeOne recur b rest = some (.int ((b : Int) - 0x100), rest) := by
  unfold decodeOne
  iterate 23 rw [if_neg (by omega)]
  rw [if_pos ⟨h1, h2⟩]

theorem decodeOne_fixstr (b : Nat) (h1 : 0xa0 ≤ b) (h2 : b ≤ 0xbf) :
    decodeOne recur b rest
      = (takeExact (b - 0xa0) rest).map (fun p => (.str p.1, p.2)) := by
  unfold decodeOne
  rw [if_neg (by omega), if_neg (by omega), if_neg (by omega), if_pos h2]

theorem decodeOne_fixarr (b : Nat) (vs : List MValue) (r : List Nat)
    (h1 : 0x90 ≤ b) (h2 : b ≤ 0x9f)
    (hr : recur (b - 0x90) rest = some (vs, r)) :
    decodeOne recur b rest = some (.arr vs, r) := by
  unfold decodeOne
  rw [if_neg (by omega), if_neg (by omega), if_pos h2, hr]

theorem decodeOne_fixmap (b : Nat) (flat : List MValue)
    (ps : List (List Nat × MValue)) (r : List Nat)
    (h1 : 0x80 ≤ b) (h2 : b ≤ 0x8f)
    (hr : recur (2 * (b - 0x80)) rest = some (flat, r))
    (ht : toStrPairs flat = some ps) :
    decodeOne recur b rest = some (.map ps, r) := by
  unfold decodeOne
  rw [if_neg (by omega), if_pos h2, hr]
  simp [ht]

theorem decodeOne_c0 : decodeOne recur 0xc0 rest = some (.nil, rest) := rfl

theorem decodeOne_c2 : decodeOne recur 0xc2 rest = some (.bool false, rest) := rfl

theorem decodeOne_c3 : decodeOne recur 0xc3 rest = some (.bool true, rest) := rfl

theorem decodeOne_cb :
    decodeOne recur 0xcb rest
      = (readBE 8 rest).map (fun p => (.float64 p.1, p.2)) := rfl

theorem decodeOne_cc :
    decodeOne recur 0xcc rest
      = (readBE 1 rest).map (fun p => (.int (p.1 : Int), p.2)) := rfl

theorem decodeOne_cd :
    decodeOne recur 0xcd rest
      = (readBE 2 rest).map (fun p => (.int (p.1 : Int), p.2)) := rfl

theorem decodeOne_ce :
    decodeOne recur 0xce rest
      = (readBE 4 rest).map (fun p => (.int (p.1 : Int), p.2)) := rfl

theorem decodeOne_cf :
    decodeOne recur 0xcf rest
      = (readBE 8 rest).map (fun p => (.int (p.1 : Int), p.2)) := rfl

theorem decodeOne_d0 :
    decodeOne recur 0xd0 rest
      = (readBE 1 rest).map (fun p => (.int (signedOf 1 p.1), p.2)) := rfl

theorem decodeOne_d1 :
    decodeOne recur 0xd1 rest
      = (readBE 2 rest).map (fun p => (.int (signedOf 2 p.1), p.2)) := rfl

theorem decodeOne_d2 :
    decodeOne recur 0xd2 rest
      = (readBE 4 rest).map (fun p => (.int (signedOf 4 p.1), p.2)) := rfl

theorem decodeOne_d3 :
    decodeOne recur 0xd3 rest
      = (readBE 8 rest).map (fun p => (.int (signedOf 8 p.1), p.2)) := rfl

theorem decodeOne_d9 (len : Nat) (r : List Nat)
    (hl : readBE 1 rest = some (len, r)) :
    decodeOne recur 0xd9 rest = (takeExact len r).map (fun p => (.str p.1, p.2)) := by
  have e : decodeOne recur 0xd9 rest
      = (match readBE 1 rest with
        | some (len, r) => (takeExact len r).map (fun p => (MValue.str p.1, p.2))
        | none => none) := rfl
  rw [e, hl]

theorem decodeOne_da (len : Nat) (r : List Nat)
    (hl : readBE 2 rest = some (len, r)) :
    decodeOne recur 0xda rest = (takeExact len r).map (fun p => (.str p.1, p.2)) := by
  have e : decodeOne recur 0xda rest
      = (match readBE 2 rest with
        | some (len, r) => (takeExact len r).map (fun p => (MValue.str p.1, p.2))
        | none => none) := rfl
  rw [e, hl]

theorem decodeOne_db (len : Nat) (r : List Nat)
    (hl : readBE 4 rest = some (len, r)) :
    decodeOne recur 0xdb rest = (takeExact len r).map (fun p => (.str p.1, p.2)) := by
  have e : decodeOne recur 0xdb rest
      = (match readBE 4 rest with
        | some (len, r) => (takeExact len r).map (fun p => (MValue.str p.1, p.2))
        | none => none) := rfl
  rw [e, hl]

theorem decodeOne_dc (count : Nat) (r r' : List Nat) (vs : List MValue)
    (hc : readBE 2 rest = some (count, r)) (hr : recur count r = some (vs, r')) :
    decodeOne recur 0xdc rest = some (.arr vs, r') := by
  have e : decodeOne recur 0xdc rest
      = (match readBE 2 rest with
        | some (count, r) =>
          (match recur count r with
          | some (vs, r') => some (MValue.arr vs, r')
          | none => none)
        | none => none) := rfl
  rw [e, hc]
  simp [hr]

theorem decodeOne_dd (count : Nat) (r r' : List Nat) (vs : List MValue)
    (hc : readBE 4 rest = some (count, r)) (hr : recur count r = some (vs, r')) :
    decodeOne recur 0xdd rest = some (.arr vs, r') := by
  have e : decodeOne recur 0xdd rest
      = (match readBE 4 rest with
        | some (count, r) =>
          (match recur count r with
          | some (vs, r') => some (MValue.arr vs, r')
          | none => none)
        | none => none) := rfl
  rw [e, hc]
  simp [hr]

theorem decodeOne_de (count : Nat) (r r' : List Nat) (flat : List MValue)
    (ps : List (List Nat × MValue))
    (hc : readBE 2 rest = some (count, r)) (hr : recur (2 * count) r = some (flat, r'))
    (ht : toStrPairs flat = some ps) :
    decodeOne recur 0xde rest = some (.map ps, r') := by
  have e : decodeOne recur 0xde rest
      = (match readBE 2 rest with
        | some (count, r) =>
          (match recur (2 * count) r with
          | some (flat, r') => (toStrPairs flat).map (fun ps => (MValue.map ps, r'))
          | none => none)
        | none => none) := rfl
  rw [e, hc]
  simp [hr, ht]

theorem decodeOne_df (count : Nat) (r r' : List Nat) (flat : List MValue)
    (ps : List (List Nat × MValue))
    (hc : readBE 4 rest = some (count, r)) (hr : recur (2 * count) r = some (flat, r'))
    (ht : toStrPairs flat = some ps) :
    decodeOne recur 0xdf rest = some (.map ps, r') := by
  have e : decodeOne recur 0xdf rest
      = (match readBE 4 rest with
        | some (count, r) =>
          (match recur (2 * count) r with
          | some (flat, r') => (toStrPairs flat).map (fun ps => (MValue.map ps, r'))
          | none => none)
        | none => none) := rfl
  rw [e, hc]
  simp [hr, ht]

end DecodeOneLemmas

theorem unpackCnt_cons (fuel n b : Nat) (bs : List Nat) :
    unpackCnt (fuel + 1) (n + 1) (b :: bs)
      = (match decodeOne (unpackCnt fuel) b bs with
        | some (v, r) =>
          (match unpackCnt fuel n r with
          | some (vs, r') => some (v :: vs, r')
          | none => none)
        | none => none) := rfl

theorem unpackCnt_step (fuel n b : Nat) (bs r r' : List Nat) (v : MValue)
    (vs : List MValue)
    (hhead : decodeOne (unpackCnt fuel) b bs = some (v, r))
    (htail : unpackCnt fuel n r = some (vs, r')) :
    unpackCnt (fuel + 1) (n + 1) (b :: bs) = some (v :: vs, r') := by
  rw [unpackCnt_cons, hhead]
  simp [htail]

/-! Head-decoding lemmas: each leaf encoding decodes back to its value. -/

theorem decodeOne_packInt (recur : Nat → List Nat → Option (List MValue × List Nat))
    (i : Int) (bv tail : List Nat) (hv : packInt i = some bv) :
    ∃ b r0, bv = b :: r0 ∧ decodeOne recur b (r0 ++ tail) = some (.int i, tail) := by
  unfold packInt at hv
  split_ifs at hv with h0 h1 h2 h3 h4 h5 g1 g2 g3 g4 g5
  · -- positive fixint
    injection hv with hv
    subst hv
    refine ⟨i.toNat, [], rfl, ?_⟩
    rw [List.nil_append, decodeOne_posfix recur tail i.toNat h1,
      Int.toNat_of_nonneg h0]
  · -- uint 8
    injection hv with hv
    subst hv
    refine ⟨0xcc, beBytes 1 i.toNat, rfl, ?_⟩
    rw [decodeOne_cc, readBE_beBytes, pow_one]
    have hm : i.toNat % 256 = i.toNat := Nat.mod_eq_of_lt (by omega)
    rw [hm]
    simp only [Option.map_some']
    rw [Int.toNat_of_nonneg h0]
  · -- uint 16
    injection hv with hv
    subst hv
    refine ⟨0xcd, beBytes 2 i.toNat, rfl, ?_⟩
    rw [decodeOne_cd, readBE_beBytes]
    have hm : i.toNat % 256 ^ 2 = i.toNat := Nat.mod_eq_of_lt (by norm_num; omega)
    rw [hm]
    simp only [Option.map_some']
    rw [Int.toNat_of_nonneg h0]
  · -- uint 32
    injection hv with hv
    subst hv
    refine ⟨0xce, beBytes 4 i.toNat, rfl, ?_⟩
    rw [decodeOne_ce, readBE_beBytes]
    have hm : i.toNat % 256 ^ 4 = i.toNat := Nat.mod_eq_of_lt (by norm_num; omega)
    rw [hm]
    simp only [Option.map_some']
    rw [Int.toNat_of_nonneg h0]
  · -- uint 64
    injection hv with hv
    subst hv
    refine ⟨0xcf, beBytes 8 i.toNat, rfl, ?_⟩
    rw [decodeOne_cf, readBE_beBytes]
    have hm : i.toNat % 256 ^ 8 = i.toNat := Nat.mod_eq_of_lt (by norm_num; omega)
    rw [hm]
    simp only [Option.map_some']
    rw [Int.toNat_of_nonneg h0]
  · -- negative fixint
    injection hv with hv
    subst hv
    refine ⟨(i + 0x100).toNat, [], rfl, ?_⟩
    rw [List.nil_append, decodeOne_negfix recur tail _ (by omega) (by omega)]
    have he : (((i + 0x100).toNat : Int) - 0x100) = i := by omega
    rw [he]
  · -- int 8
    injection hv with hv
    subst hv
    refine ⟨0xd0, beBytes 1 (i + 0x100).toNat, rfl, ?_⟩
    rw [decodeOne_d0, readBE_beBytes, pow_one]
    have hm : (i + 0x100).toNat % 256 = (i + 0x100).toNat :=
      Nat.mod_eq_of_lt (by omega)
    rw [hm]
    simp only [Option.map_some']
    have hs : signedOf 1 (i + 0x100).toNat = i := by
      unfold signedOf
      rw [if_neg (by norm_num; omega)]
      norm_num
      omega
    rw [hs]
  · -- int 16
    injection hv with hv
    subst hv
    refine ⟨0xd1, beBytes 2 (i + 0x10000).toNat, rfl, ?_⟩
    rw [decodeOne_d1, readBE_beBytes]
    have hm : (i + 0x10000).toNat % 256 ^ 2 = (i + 0x10000).toNat :=
      Nat.mod_eq_of_lt (by norm_num; omega)
    rw [hm]
    simp only [Option.map_some']
    have hs : signedOf 2 (i + 0x10000).toNat = i := by
      unfold signedOf
      rw [if_neg (by norm_num; omega)]
      norm_num
      omega
    rw [hs]
  · -- int 32
    injection hv with hv
    subst hv
    refine ⟨0xd2, beBytes 4 (i + 0x100000000).toNat, rfl, ?_⟩
    rw [decodeOne_d2, readBE_beBytes]
    have hm : (i + 0x100000000).toNat % 256 ^ 4 = (i + 0x100000000).toNat :=
      Nat.mod_eq_of_lt (by norm_num; omega)
    rw [hm]
    simp only [Option.map_some']
    have hs : signedOf 4 (i + 0x100000000).toNat = i := by
      unfold signedOf
      rw [if_neg (by norm_num; omega)]
      norm_num
      omega
    rw [hs]
  · -- int 64
    injection hv with hv
    subst hv
    refine ⟨0xd3, beBytes 8 (i + 0x10000000000000000).toNat, rfl, ?_⟩
    rw [decodeOne_d3, readBE_beBytes]
    have hm : (i + 0x10000000000000000).toNat % 256 ^ 8
        = (i + 0x10000000000000000).toNat :=
      Nat.mod_eq_of_lt (by norm_num; omega)
    rw [hm]
    simp only [Option.map_some']
    have hs : signedOf 8 (i + 0x10000000000000000).toNat = i := by
      unfold signedOf
      rw [if_neg (by norm_num; omega)]
      norm_num
      omega
    rw [hs]

theorem decodeOne_packStr (recur : Nat → List Nat → Option (List MValue × List Nat))
    (utf8 bv tail : List Nat) (hv : packStr utf8 = some bv) :
    ∃ b r0, bv = b :: r0 ∧ decodeOne recur b (r0 ++ tail) = some (.str utf8, tail) := by
  unfold packStr packStrHeader at hv
  split_ifs at hv with h1 h2 h3 h4
  · -- fixstr
    simp only [Option.map_some'] at hv
    injection hv with hv
    subst hv
    refine ⟨0xa0 + utf8.length, utf8, rfl, ?_⟩
    rw [decodeOne_fixstr recur (utf8 ++ tail) _ (by omega) (by omega)]
    have he : 0xa0 + utf8.length - 0xa0 = utf8.length := by omega
    rw [he, takeExact_append]
    rfl
  · -- str 8
    simp only [Option.map_some'] at hv
    injection hv with hv
    subst hv
    refine ⟨0xd9, beBytes 1 utf8.length ++ utf8, rfl, ?_⟩
    have hr : readBE 1 ((beBytes 1 utf8.length ++ utf8) ++ tail)
        = some (utf8.length, utf8 ++ tail) := by
      rw [List.append_assoc, readBE_beBytes, pow_one]
      have hm : utf8.length % 256 = utf8.length := Nat.mod_eq_of_lt (by omega)
      rw [hm]
    rw [decodeOne_d9 recur _ _ _ hr, takeExact_append]
    rfl
  · -- str 16
    simp only [Option.map_some'] at hv
    injection hv with hv
    subst hv
    refine ⟨0xda, beBytes 2 utf8.length ++ utf8, rfl, ?_⟩
    have hr : readBE 2 ((beBytes 2 utf8.length ++ utf8) ++ tail)
        = some (utf8.length, utf8 ++ tail) := by
      rw [List.append_assoc, readBE_beBytes]
      have hm : utf8.length % 256 ^ 2 = utf8.length :=
        Nat.mod_eq_of_lt (by norm_num; omega)
      rw [hm]
    rw [decodeOne_da recur _ _ _ hr, takeExact_append]
    rfl
  · -- str 32
    simp only [Option.map_some'] at hv
    injection hv with hv
    subst hv
    refine ⟨0xdb, beBytes 4 utf8.length ++ utf8, rfl, ?_⟩
    have hr : readBE 4 ((beBytes 4 utf8.length ++ utf8) ++ tail)
        = some (utf8.length, utf8 ++ tail) := by
      rw [List.append_assoc, readBE_beBytes]
      have hm : utf8.length % 256 ^ 4 = utf8.length :=
        Nat.mod_eq_of_lt (by norm_num; omega)
      rw [hm]
    rw [decodeOne_db recur _ _ _ hr, takeExact_append]
    rfl
  · simp at hv

theorem decodeOne_packFloat (recur : Nat → List Nat → Option (List MValue × List Nat))
    (bits : Nat) (tail : List Nat) (hb : bits < 2 ^ 64) :
    decodeOne recur 0xcb (beBytes 8 bits ++ tail) = some (.float64 bits, tail) := by
  rw [decodeOne_cb, readBE_beBytes]
  have hm : bits % 256 ^ 8 = bits := Nat.mod_eq_of_lt (by norm_num at hb ⊢; omega)
  rw [hm]
  rfl

theorem cons_append_assoc (a : Nat) (x y z : List Nat) :
    (a :: x ++ y) ++ z = a :: (x ++ (y ++ z)) := by
  simp

theorem dec_tail (v : MValue) (vs : List MValue) :
    vsizeList vs < vsizeList (v :: vs) := by
  have e : vsizeList (v :: vs) = vsize v + vsizeList vs := rfl
  have := vsize_pos v
  omega

theorem dec_arr (items vs : List MValue) :
    vsizeList items < vsizeList (MValue.arr items :: vs) := by
  have e : vsizeList (MValue.arr items :: vs)
      = (1 + vsizeList items) + vsizeList vs := rfl
  omega

theorem dec_map (pairs : List (List Nat × MValue)) (vs : List MValue) :
    vsizeList (flattenPairs pairs) < vsizeList (MValue.map pairs :: vs) := by
  have e : vsizeList (MValue.map pairs :: vs)
      = (1 + vsizePairs pairs) + vsizeList vs := rfl
  rw [vsizeList_flatten]
  omega

/-- Round-trip at the level of value runs: decoding an encoded run of values,
with any fuel at least the run's value count, returns exactly those values and
leaves the trailing bytes untouched. -/
theorem unpackCnt_packList (vs : List MValue) (out rest : List Nat) (fuel : Nat)
    (hp : packList vs = some out) (hf : vsizeList vs ≤ fuel) :
    unpackCnt fuel vs.length (out ++ rest) = some (vs, rest) := by
  cases vs with
  | nil =>
    have h : out = [] := by
      have e : packList [] = some [] := rfl
      rw [e] at hp
      injection hp with hp
      exact hp.symm
    subst h
    cases fuel <;> rfl
  | cons v vs' =>
    have hp' : ∃ bv bvs, packb v = some bv ∧ packList vs' = some bvs
        ∧ out = bv ++ bvs := by
      have e : packList (v :: vs')
          = (match packb v, packList vs' with
            | some bv, some bvs => some (bv ++ bvs)
            | _, _ => none) := rfl
      rw [e] at hp
      cases hv : packb v with
      | none => rw [hv] at hp; simp at hp
      | some bv =>
        cases hvs : packList vs' with
        | none => rw [hv, hvs] at hp; simp at hp
        | some bvs =>
          rw [hv, hvs] at hp
          injection hp with hp
          exact ⟨bv, bvs, rfl, rfl, hp.symm⟩
    obtain ⟨bv, bvs, hv, hvs, rfl⟩ := hp'
    have hvp : 1 ≤ vsize v := vsize_pos v
    have hfl : vsizeList (v :: vs') = vsize v + vsizeList vs' := rfl
    cases fuel with
    | zero => exact absurd hf (by rw [hfl]; omega)
    | succ f =>
      have hf1 : vsizeList vs' ≤ f := by rw [hfl] at hf; omega
      have hf2 : vsize v ≤ f + 1 := by rw [hfl] at hf; omega
      have htail : unpackCnt f vs'.length (bvs ++ rest) = some (vs', rest) :=
        unpackCnt_packList vs' bvs rest f hvs hf1
      rw [List.append_assoc]
      show unpackCnt (f + 1) (vs'.length + 1) (bv ++ (bvs ++ rest))
          = some (v :: vs', rest)
      cases v with
      | nil =>
        have e : bv = [0xc0] := by
          have : packb .nil = some [0xc0] := rfl
          rw [this] at hv
          injection hv with hv
          exact hv.symm
        subst e
        exact unpackCnt_step f vs'.length 0xc0 (bvs ++ rest) (bvs ++ rest) rest
          .nil vs' (decodeOne_c0 _ _) htail
      | bool b =>
        cases b with
        | false =>
          have e : bv = [0xc2] := by
            have : packb (.bool false) = some [0xc2] := rfl
            rw [this] at hv
            injection hv with hv
            exact hv.symm
          subst e
          exact unpackCnt_step f vs'.length 0xc2 (bvs ++ rest) (bvs ++ rest) rest
            (.bool false) vs' (decodeOne_c2 _ _) htail
        | true =>
          have e : bv = [0xc3] := by
            have : packb (.bool true) = some [0xc3] := rfl
            rw [this] at hv
            injection hv with hv
            exact hv.symm
          subst e
          exact unpackCnt_step f vs'.length 0xc3 (bvs ++ rest) (bvs ++ rest) rest
            (.bool true) vs' (decodeOne_c3 _ _) htail
      | int i =>
        have hvi : packInt i = some bv := hv
        obtain ⟨b, r0, rfl, hhead⟩ :=
          decodeOne_packInt (unpackCnt f) i bv (bvs ++ rest) hvi
        rw [List.cons_append]
        exact unpackCnt_step f vs'.length b (r0 ++ (bvs ++ rest)) (bvs ++ rest)
          rest (.int i) vs' hhead htail
      | float64 bits =>
        have hvf : (if bits < 2 ^ 64 then some (0xcb :: beBytes 8 bits) else none)
            = some bv := hv
        by_cases hb : bits < 2 ^ 64
        · rw [if_pos hb] at hvf
          injection hvf with hvf
          subst hvf
          rw [List.cons_append]
          exact unpackCnt_step f vs'.length 0xcb (beBytes 8 bits ++ (bvs ++ rest))
            (bvs ++ rest) rest (.float64 bits) vs'
            (decodeOne_packFloat (unpackCnt f) bits (bvs ++ rest) hb) htail
        · rw [if_neg hb] at hvf
          simp at hvf
      | str utf8 =>
        have hvs2 : packStr utf8 = some bv := hv
        obtain ⟨b, r0, rfl, hhead⟩ :=
          decodeOne_packStr (unpackCnt f) utf8 bv (bvs ++ rest) hvs2
        rw [List.cons_append]
        exact unpackCnt_step f vs'.length b (r0 ++ (bvs ++ rest)) (bvs ++ rest)
          rest (.str utf8) vs' hhead htail
      | arr items =>
        have e : packb (.arr items)
            = (match packArrHeader items.length, packList items with
              | some header, some body => some (header ++ body)
              | _, _ => none) := rfl
        rw [e] at hv
        cases hh : packArrHeader items.length with
        | none => rw [hh] at hv; simp at hv
        | some header =>
          cases hbd : packList items with
          | none => rw [hh, hbd] at hv; simp at hv
          | some body =>
            rw [hh, hbd] at hv
            injection hv with hv
            have hfi : vsizeList items ≤ f := by
              have : vsize (.arr items) = 1 + vsizeList items := rfl
              rw [this] at hf2
              omega
            have hbody : unpackCnt f items.length (body ++ (bvs ++ rest))
                = some (items, bvs ++ rest) :=
              unpackCnt_packList items body (bvs ++ rest) f hbd hfi
            subst hv
            unfold packArrHeader at hh
            split_ifs at hh with hc1 hc2 hc3
            · -- fixarray
              injection hh with hh
              subst hh
              rw [List.cons_append]
              refine unpackCnt_step f vs'.length _ _ _ rest (.arr items) vs' ?_ htail
              refine decodeOne_fixarr (unpackCnt f) (body ++ (bvs ++ rest)) _
                items (bvs ++ rest) (by omega) (by omega) ?_
              have : 0x90 + items.length - 0x90 = items.length := by omega
              rw [this]
              exact hbody
            · -- array 16
              injection hh with hh
              subst hh
              rw [cons_append_assoc]
              refine unpackCnt_step f vs'.length _ _ _ rest (.arr items) vs' ?_ htail
              refine decodeOne_dc (unpackCnt f) _ items.length (body ++ (bvs ++ rest))
                (bvs ++ rest) items ?_ hbody
              rw [readBE_beBytes]
              have : items.length % 256 ^ 2 = items.length :=
                Nat.mod_eq_of_lt (by norm_num; omega)
              rw [this]
            · -- array 32
              injection hh with hh
              subst hh
              rw [cons_append_assoc]
              refine unpackCnt_step f vs'.length _ _ _ rest (.arr items) vs' ?_ htail
              refine decodeOne_dd (unpackCnt f) _ items.length (body ++ (bvs ++ rest))
                (bvs ++ rest) items ?_ hbody
              rw [readBE_beBytes]
              have : items.length % 256 ^ 4 = items.length :=
                Nat.mod_eq_of_lt (by norm_num; omega)
              rw [this]
      | map pairs =>
        have e : packb (.map pairs)
            = (match packMapHeader pairs.length, packPairs pairs with
              | some header, some body => some (header ++ body)
              | _, _ => none) := rfl
        rw [e] at hv
        cases hh : packMapHeader pairs.length with
        | none => rw [hh] at hv; simp at hv
        | some header =>
          cases hbd : packPairs pairs with
          | none => rw [hh, hbd] at hv; simp at hv
          | some body =>
            rw [hh, hbd] at hv
            injection hv with hv
            have hbd' : packList (flattenPairs pairs) = some body := by
              rw [← packPairs_eq_packList_flatten]
              exact hbd
            have hfp : vsizeList (flattenPairs pairs) ≤ f := by
              rw [vsizeList_flatten]
              have : vsize (.map pairs) = 1 + vsizePairs pairs := rfl
              rw [this] at hf2
              omega
            have hbody : unpackCnt f (2 * pairs.length) (body ++ (bvs ++ rest))
                = some (flattenPairs pairs, bvs ++ rest) := by
              have := unpackCnt_packList (flattenPairs pairs) body (bvs ++ rest)
                f hbd' hfp
              rw [length_flatten] at this
              exact this
            subst hv
            unfold packMapHeader at hh
            split_ifs at hh with hc1 hc2 hc3
            · -- fixmap
              injection hh with hh
              subst hh
              rw [List.cons_append]
              refine unpackCnt_step f vs'.length _ _ _ rest (.map pairs) vs' ?_ htail
              refine decodeOne_fixmap (unpackCnt f) (body ++ (bvs ++ rest)) _
                (flattenPairs pairs) pairs (bvs ++ rest) (by omega) (by omega)
                ?_ (toStrPairs_flatten pairs)
              have : 0x80 + pairs.length - 0x80 = pairs.length := by omega
              rw [this]
              exact hbody
            · -- map 16
              injection hh with hh
              subst hh
              rw [cons_append_assoc]
              refine unpackCnt_step f vs'.length _ _ _ rest (.map pairs) vs' ?_ htail
              refine decodeOne_de (unpackCnt f) _ pairs.length (body ++ (bvs ++ rest))
                (bvs ++ rest) (flattenPairs pairs) pairs ?_ hbody
                (toStrPairs_flatten pairs)
              rw [readBE_beBytes]
              have : pairs.length % 256 ^ 2 = pairs.length :=
                Nat.mod_eq_of_lt (by norm_num; omega)
              rw [this]
            · -- map 32
              injection hh with hh
              subst hh
              rw [cons_append_assoc]
              refine unpackCnt_step f vs'.length _ _ _ rest (.map pairs) vs' ?_ htail
              refine decodeOne_df (unpackCnt f) _ pairs.length (body ++ (bvs ++ rest))
                (bvs ++ rest) (flattenPairs pairs) pairs ?_ hbody
                (toStrPairs_flatten pairs)
              rw [readBE_beBytes]
              have : pairs.length % 256 ^ 4 = pairs.length :=
                Nat.mod_eq_of_lt (by norm_num; omega)
              rw [this]
termination_by vsizeList vs
decreasing_by
all_goals try simp_wf
all_goals subst vs
all_goals try subst v
all_goals first
| exact dec_tail _ _
| exact dec_arr _ _
| exact dec_map _ _

theorem packStr_length_pos (utf8 out : List Nat) (h : packStr utf8 = some out) :
    1 ≤ out.length := by
  unfold packStr packStrHeader at h
  split_ifs at h
  · simp only [Option.map_some', Option.some.injEq] at h
    subst h
    simp [List.length_append]
  · simp only [Option.map_some', Option.some.injEq] at h
    subst h
    simp [List.length_append]
  · simp only [Option.map_some', Option.some.injEq] at h
    subst h
    simp [List.length_append]
  · simp only [Option.map_some', Option.some.injEq] at h
    subst h
    simp [List.length_append]
  · simp at h

mutual

theorem vsize_le_packb (v : MValue) (out : List Nat) (h : packb v = some out) :
    vsize v ≤ out.length := by
  cases v with
  | nil =>
    have e : packb .nil = some [0xc0] := rfl
    rw [e] at h
    injection h with h
    subst h
    exact Nat.le_refl 1
  | bool b =>
    cases b with
    | false =>
      have e : packb (.bool false) = some [0xc2] := rfl
      rw [e] at h
      injection h with h
      subst h
      exact Nat.le_refl 1
    | true =>
      have e : packb (.bool true) = some [0xc3] := rfl
      rw [e] at h
      injection h with h
      subst h
      exact Nat.le_refl 1
  | int i =>
    have hv : packInt i = some out := h
    unfold packInt at hv
    split_ifs at hv <;> (injection hv with hv; subst hv; show 1 ≤ _; simp)
  | float64 bits =>
    have hv : (if bits < 2 ^ 64 then some (0xcb :: beBytes 8 bits) else none)
        = some out := h
    split_ifs at hv
    injection hv with hv
    subst hv
    show 1 ≤ _
    simp
  | str utf8 =>
    exact packStr_length_pos utf8 out h
  | arr items =>
    have e : packb (.arr items)
        = (match packArrHeader items.length, packList items with
          | some header, some body => some (header ++ body)
          | _, _ => none) := rfl
    rw [e] at h
    cases hh : packArrHeader items.length with
    | none => rw [hh] at h; simp at h
    | some header =>
      cases hbd : packList items with
      | none => rw [hh, hbd] at h; simp at h
      | some body =>
        rw [hh, hbd] at h
        injection h with h
        subst h
        have h1 : 1 ≤ header.length := by
          unfold packArrHeader at hh
          split_ifs at hh <;> (injection hh with hh; subst hh; simp)
        have h2 : vsizeList items ≤ body.length :=
          vsizeList_le_packList items body hbd
        have e2 : vsize (.arr items) = 1 + vsizeList items := rfl
        rw [e2, List.length_append]
        omega
  | map pairs =>
    have e : packb (.map pairs)
        = (match packMapHeader pairs.length, packPairs pairs with
          | some header, some body => some (header ++ body)
          | _, _ => none) := rfl
    rw [e] at h
    cases hh : packMapHeader pairs.length with
    | none => rw [hh] at h; simp at h
    | some header =>
      cases hbd : packPairs pairs with
      | none => rw [hh, hbd] at h; simp at h
      | some body =>
        rw [hh, hbd] at h
        injection h with h
        subst h
        have h1 : 1 ≤ header.length := by
          unfold packMapHeader at hh
          split_ifs at hh <;> (injection hh with hh; subst hh; simp)
        have h2 : vsizePairs pairs ≤ body.length :=
          vsizePairs_le_packPairs pairs body hbd
        have e2 : vsize (.map pairs) = 1 + vsizePairs pairs := rfl
        rw [e2, List.length_append]
        omega

theorem vsizeList_le_packList (vs : List MValue) (out : List Nat)
    (h : packList vs = some out) : vsizeList vs ≤ out.length := by
  cases vs with
  | nil =>
    have e : vsizeList [] = 0 := rfl
    rw [e]
    omega
  | cons v vs' =>
    have e : packList (v :: vs')
        = (match packb v, packList vs' with
          | some bv, some bvs => some (bv ++ bvs)
          | _, _ => none) := rfl
    rw [e] at h
    cases hv : packb v with
    | none => rw [hv] at h; simp at h
    | some bv =>
      cases hvs : packList vs' with
      | none => rw [hv, hvs] at h; simp at h
      | some bvs =>
        rw [hv, hvs] at h
        injection h with h
        subst h
        have h1 : vsize v ≤ bv.length := vsize_le_packb v bv hv
        have h2 : vsizeList vs' ≤ bvs.length := vsizeList_le_packList vs' bvs hvs
        have e2 : vsizeList (v :: vs') = vsize v + vsizeList vs' := rfl
        rw [e2, List.length_append]
        omega

theorem vsizePairs_le_packPairs (ps : List (List Nat × MValue)) (out : List Nat)
    (h : packPairs ps = some out) : vsizePairs ps ≤ out.length := by
  cases ps with
  | nil =>
    have e : vsizePairs [] = 0 := rfl
    rw [e]
    omega
  | cons p ps' =>
    obtain ⟨k, v⟩ := p
    have e : packPairs ((k, v) :: ps')
        = (match packStr k, packb v, packPairs ps' with
          | some bk, some bv, some bps => some (bk ++ bv ++ bps)
          | _, _, _ => none) := rfl
    rw [e] at h
    cases hk : packStr k with
    | none => rw [hk] at h; simp at h
    | some bk =>
      cases hv : packb v with
      | none => rw [hk, hv] at h; simp at h
      | some bv =>
        cases hps : packPairs ps' with
        | none => rw [hk, hv, hps] at h; simp at h
        | some bps =>
          rw [hk, hv, hps] at h
          injection h with h
          subst h
          have h0 : 1 ≤ bk.length := packStr_length_pos k bk hk
          have h1 : vsize v ≤ bv.length := vsize_le_packb v bv hv
          have h2 : vsizePairs ps' ≤ bps.length :=
            vsizePairs_le_packPairs ps' bps hps
          have e2 : vsizePairs ((k, v) :: ps') = 1 + vsize v + vsizePairs ps' := rfl
          rw [e2, List.length_append, List.length_append]
          omega

end

/-- Round-trip law of the envelope codec: any payload value the packer accepts
is recovered exactly by a whole-buffer decode of its encoding. -/
theorem unpackb_packb (v : MValue) (out : List Nat) (hp : packb v = some out) :
    unpackb out = some v := by
  have hl : packList [v] = some out := by
    have e : packList [v]
        = (match packb v, packList ([] : List MValue) with
          | some bv, some bvs => some (bv ++ bvs)
          | _, _ => none) := rfl
    rw [e, hp]
    show some (out ++ []) = some out
    rw [List.append_nil]
  have hsz : vsizeList [v] ≤ out.length := by
    have e : vsizeList [v] = vsize v + 0 := rfl
    have := vsize_le_packb v out hp
    rw [e]
    omega
  have h := unpackCnt_packList [v] out [] out.length hl hsz
  rw [List.append_nil] at h
  have h' : unpackCnt out.length 1 out = some ([v], []) := h
  unfold unpackb
  rw [h']

/-! ## Topic constants (module level in `__init__.py`) -/

def ADAPTER_TOPIC : String := "from_adapter/extensions"

def SCRATCH_TOPIC : String := "from_scratch/extensions"

def NOTIFICATION_TOPIC : String := "notification"

def EXTENSIONS_OPERATE_TOPIC : String := "adapter_core/extensions/operate"

/-! ## The receive loop (`MessageNode.receive_loop`)

The loop is embedded as a function over an explicit schedule of what
`self.subscriber.recv_multipart(zmq.NOBLOCK)` yields on successive
iterations: a multipart message (a list of byte frames), no message
(`zmq.error.Again`, after which the idle hook and the sleep run), or no
message with a `KeyboardInterrupt` arriving during the idle branch.

`MessageNode.message_handle` is abstract in the base class; its invocations
are recorded in the state (`handled`), with the topic frame kept as raw bytes
(the UTF-8 decode of `data[0]` is modelled as the identity on the frame).
Exceptions that escape a statement abort the loop and are reported in the
result; only `zmq.error.Again` is caught by the loop body, and
`KeyboardInterrupt` during the idle branch runs `clean_up` and is re-raised. -/

inductive PyExc where
  | unpackError : PyExc
  | indexError : PyExc
  | keyboardInterrupt : PyExc
  | typeError : PyExc
  | valueError : PyExc
  | keyError : PyExc
  | attributeError : PyExc
deriving DecidableEq

inductive RecvEvent where
  | msg (frames : List (List Nat)) : RecvEvent
  | again : RecvEvent
  | againInterrupt : RecvEvent

structure MsgNodeState where
  running : Bool
  channelsOpen : Bool
  handled : List (List Nat × MValue)

/-- The `clean_up` method: clear the running flag, close both sockets and
terminate the context. -/
def clean_up (st : MsgNodeState) : MsgNodeState :=
  { st with running := false, channelsOpen := false }

inductive LoopResult where
  | pending (st : MsgNodeState) : LoopResult
  | exited (st : MsgNodeState) (exc : Option PyExc) : LoopResult

def LoopResult.state : LoopResult → MsgNodeState
  | .pending st => st
  | .exited st _ => st

/-- `receive_loop` over a finite schedule of socket events.  An exhausted
schedule with the loop still willing to iterate is reported as `pending`. -/
def receive_loop (st : MsgNodeState) : List RecvEvent → LoopResult
  | [] => .pending st
  | ev :: evs =>
    if st.running then
      match ev with
      | .msg frames =>
        match frames with
        | t :: p :: _ =>
          match unpackb p with
          | some payload =>
            receive_loop { st with handled := st.handled ++ [(t, payload)] } evs
          | none => .exited st (some .unpackError)
        | _ => .exited st (some .indexError)
      | .again => receive_loop st evs
      | .againInterrupt => .exited (clean_up st) (some .keyboardInterrupt)
    else .exited st none

/-! ## Dispatch-level payloads

For the dispatch and publish paths the payload is viewed as a Python
dictionary at field granularity: an association list in insertion order,
with the first binding of a key the authoritative one (Python dicts have
unique keys).  `DVal` covers the value shapes the routing logic can meet:
strings, integers, booleans, `None`, and an opaque constructor for anything
else (whose Python truthiness is carried explicitly). -/

inductive DVal where
  | str (s : String) : DVal
  | int (n : Int) : DVal
  | bool (b : Bool) : DVal
  | none_ : DVal
  | other (tag : Nat) (truthy : Bool) : DVal
deriving DecidableEq

abbrev DPayload := List (String × DVal)

/-- `dict.get(key)`: the value under `key`, or Python `None` (here: `none`)
when the key is absent. -/
def dget (p : DPayload) (k : String) : Option DVal :=
  match p with
  | [] => none
  | (k', v) :: rest => if k' = k then some v else dget rest k

/-- `dict[key] = value`: overwrite the first binding or append a new one. -/
def dset (p : DPayload) (k : String) (v : DVal) : DPayload :=
  match p with
  | [] => [(k, v)]
  | (k', v') :: rest => if k' = k then (k, v) :: rest else (k', v') :: dset rest k v

/-- Python truthiness of a `DVal`. -/
def dtruthy : DVal → Bool
  | .str s => s ≠ ""
  | .int n => n ≠ 0
  | .bool b => b
  | .none_ => false
  | .other _ t => t

/-- Truthiness of `dict.get(key)` (absent key gives `None`, which is falsy). -/
def dgetTruthy (o : Option DVal) : Bool :=
  match o with
  | some v => dtruthy v
  | none => false

/-! ## Wire-facing operations of `MessageNode`

`set_subscriber_topic` and `publish_payload` both start with
`if not type(topic) is str: raise TypeError(...)` before touching their
socket, so the topic argument is embedded as an arbitrary Python object.
Each operation returns the list of socket effects it performed together with
the exception it raised, if any. -/

inductive PyObj where
  | str (s : String) : PyObj
  | int (n : Int) : PyObj
  | bool (b : Bool) : PyObj
  | none_ : PyObj
  | dict (p : DPayload) : PyObj
deriving DecidableEq

inductive WireEffect where
  | setsockoptSubscribe (topic : String) : WireEffect
  | sendMultipart (topicFrame : String) (payload : DPayload) : WireEffect
deriving DecidableEq

/-- `MessageNode.set_subscriber_topic`: type-check the topic, then register
the subscription filter on the SUB socket. -/
def set_subscriber_topic (topic : PyObj) : List WireEffect × Option PyExc :=
  match topic with
  | .str s => ([.setsockoptSubscribe s], none)
  | _ => ([], some .typeError)

/-- `MessageNode.publish_payload`: type-check the topic, then msgpack-encode
the payload and send the two-frame message on the PUB socket (a single
`send_multipart` call; the effect records the payload at dict granularity,
its byte encoding being the concern of `packb`). -/
def publish_payload (payload : DPayload) (topic : PyObj) :
    List WireEffect × Option PyExc :=
  match topic with
  | .str s => ([.sendMultipart s payload], none)
  | _ => ([], some .typeError)

/-! ## `AdapterNode`: handler registry and dispatch

`AdapterNode.__init__` builds `self._handlers = {k: [] for k in
self.message_types}` plus the `'all'` key.  Handlers are abstract (`H`);
whether an argument is `callable` is passed explicitly. -/

def message_types : List String :=
  ["notification", "from_scratch", "from_adapter", "current_extension"]

abbrev Registry (H : Type) := List (String × List H)

def regLookup {H : Type} (r : Registry H) (k : String) : Option (List H) :=
  match r with
  | [] => none
  | (k', hs) :: rest => if k' = k then some hs else regLookup rest k

def regAppend {H : Type} (r : Registry H) (k : String) (f : H) : Registry H :=
  match r with
  | [] => []
  | (k', hs) :: rest =>
    if k' = k then (k', hs ++ [f]) :: rest else (k', hs) :: regAppend rest k f

/-- The registry as initialised by `AdapterNode.__init__`. -/
def initHandlers (H : Type) : Registry H :=
  (message_types.map (fun k => (k, ([] : List H)))) ++ [("all", [])]

/-- `AdapterNode.add_handler(func, type)`: reject non-callables with
`ValueError`; then `self._handlers[type].append(func)`, which raises
`KeyError` — leaving the registry untouched — when `type` is not a key. -/
def add_handler {H : Type} (r : Registry H) (isCallable : Bool) (f : H)
    (ty : String) : Registry H × Option PyExc :=
  if ¬ isCallable then (r, some .valueError)
  else
    match regLookup r ty with
    | some _ => (regAppend r ty f, none)
    | none => (r, some .keyError)

/-- `AdapterNode.get_handlers(type)`:
`self._handlers.get(type, []) + self._handlers['all']` (the `'all'` key is
always present after `__init__`). -/
def get_handlers {H : Type} (r : Registry H) (ty : String) : List H :=
  (regLookup r ty).getD [] ++ (regLookup r "all").getD []

/-! ## `AdapterNode.message_handle` -/

/-- The constructor state of an `AdapterNode` that dispatch reads:
`self.EXTENSION_ID` (set to `"eim"` in `__init__`), whether an
`external_message_processor` callback was supplied, and the handler
registry. -/
structure AdapterNode (H : Type) where
  EXTENSION_ID : String := "eim"
  hasExternalProcessor : Bool := false
  handlers : Registry H := initHandlers H

/-- The callbacks `message_handle` can invoke, in invocation order.
`registryHandler` records a call to a handler taken from `_handlers`
(no code path in the source produces one — the registry-dispatch block in
`message_handle` is commented out). -/
inductive DispatchCall (H : Type) where
  | extensionMessageHandle (topic : String) (payload : DPayload) : DispatchCall H
  | exitMessageHandle (topic : String) (payload : DPayload) : DispatchCall H
  | externalProcessor (topic : String) (payload : DPayload) : DispatchCall H
  | registryHandler (h : H) (topic : String) (payload : DPayload) : DispatchCall H

/-- `AdapterNode.message_handle(topic, payload)`: on the scratch topic with a
matching `extension_id`, call `extension_message_handle`; on the operate
topic with a matching `extension_id`, call `exit_message_handle`; finally,
if an external processor was supplied, call it on every message. -/
def message_handle {H : Type} (n : AdapterNode H) (topic : String)
    (payload : DPayload) : List (DispatchCall H) :=
  (if topic = SCRATCH_TOPIC then
    (if dget payload "extension_id" = some (.str n.EXTENSION_ID) then
      [.extensionMessageHandle topic payload]
    else [])
  else [])
  ++ (if topic = EXTENSIONS_OPERATE_TOPIC then
    (if dget payload "extension_id" = some (.str n.EXTENSION_ID) then
      [.exitMessageHandle topic payload]
    else [])
  else [])
  ++ (if n.hasExternalProcessor then [.externalProcessor topic payload] else [])

/-- The registry handlers a dispatch invoked, in order. -/
def registryCalls {H : Type} (cs : List (DispatchCall H)) : List H :=
  cs.filterMap (fun c =>
    match c with
    | .registryHandler h _ _ => some h
    | _ => none)

/-! ## `AdapterNode.publish` -/

/-- The argument of `AdapterNode.publish`: a dict with optional `topic` and
`payload` fields (`message.get('topic')` / `message.get('payload')`). -/
structure PubMessage where
  topic : Option PyObj := none
  payload : Option DPayload := none

/-- Python truthiness of the topic field (`if not topic:`). -/
def pyTruthy : PyObj → Bool
  | .str s => s ≠ ""
  | .int n => n ≠ 0
  | .bool b => b
  | .none_ => false
  | .dict p => p ≠ []

/-- `AdapterNode.publish(message)`: read `topic` (defaulting to
`self.ADAPTER_TOPIC` when falsy or absent) and `payload`; a missing payload
makes `payload.get("extension_id")` an attribute access on `None`
(`AttributeError`); a payload with a falsy/absent `extension_id` is stamped
with `self.get_extension_id()`; then `publish_payload(payload, topic)`. -/
def publish {H : Type} (n : AdapterNode H) (m : PubMessage) :
    List WireEffect × Option PyExc :=
  match m.payload with
  | none => ([], some .attributeError)
  | some p =>
    let topic : PyObj :=
      match m.topic with
      | some t => if pyTruthy t then t else .str ADAPTER_TOPIC
      | none => .str ADAPTER_TOPIC
    let p' :=
      if dgetTruthy (dget p "extension_id") then p
      else dset p "extension_id" (.str n.EXTENSION_ID)
    publish_payload p' topic

/-! ## `TokenBucket` (`utils.py`)

Wall-clock reads (`time.time()`) are passed in explicitly as rational
numbers; each operation takes the time at which it runs.  Fields keep the
source's names (`_tokens` is the mutable count, `timestamp` the last-refill
time). -/

structure TokenBucket where
  capacity : ℚ
  _tokens : ℚ
  fill_rate : ℚ
  timestamp : ℚ
deriving DecidableEq

/-- `TokenBucket.__init__(tokens, fill_rate)` at construction time `now`. -/
def TokenBucket.init (tokens fill_rate now : ℚ) : TokenBucket :=
  { capacity := tokens, _tokens := tokens, fill_rate := fill_rate,
    timestamp := now }

/-- `TokenBucket.get_tokens` (the `tokens` property): refill lazily — only
when the count is below capacity — by `fill_rate * (now - timestamp)`, capped
at capacity, updating the timestamp; return the (possibly refilled) count. -/
def get_tokens (b : TokenBucket) (now : ℚ) : ℚ × TokenBucket :=
  if b._tokens < b.capacity then
    let delta := b.fill_rate * (now - b.timestamp)
    let t := min b.capacity (b._tokens + delta)
    (t, { b with _tokens := t, timestamp := now })
  else (b._tokens, b)

/-- `TokenBucket.consume(tokens)`: read `self.tokens` (which refills), then
deduct on success or return `False` without deducting. -/
def consume (b : TokenBucket) (tokens now : ℚ) : Bool × TokenBucket :=
  let r := get_tokens b now
  if tokens ≤ r.1 then (true, { r.2 with _tokens := r.2._tokens - tokens })
  else (false, r.2)

/-- A client-visible operation on a bucket, tagged with the time it runs. -/
inductive BucketOp where
  | consumeOp (n : ℚ) : BucketOp
  | readOp : BucketOp

def runOps (b : TokenBucket) : List (ℚ × BucketOp) → TokenBucket
  | [] => b
  | (now, .consumeOp n) :: rest => runOps (consume b n now).2 rest
  | (now, .readOp) :: rest => runOps (get_tokens b now).2 rest

/-- A schedule whose times never decrease (starting from `t0`) and whose
consume amounts are nonnegative. -/
def ValidFrom (t0 : ℚ) : List (ℚ × BucketOp) → Prop
  | [] => True
  | (now, op) :: rest =>
    t0 ≤ now
      ∧ (match op with
        | .consumeOp n => 0 ≤ n
        | .readOp => True)
      ∧ ValidFrom now rest

/-- The bucket state invariant: count within `[0, capacity]`, nonnegative
fill rate. -/
def BucketInv (b : TokenBucket) : Prop :=
  0 ≤ b._tokens ∧ b._tokens ≤ b.capacity ∧ 0 ≤ b.fill_rate

theorem get_tokens_fst (b : TokenBucket) (now : ℚ) :
    (get_tokens b now).1 = (get_tokens b now).2._tokens := by
  unfold get_tokens
  split <;> rfl

theorem get_tokens_inv (b : TokenBucket) (now : ℚ) (hinv : BucketInv b)
    (ht : b.timestamp ≤ now) :
    BucketInv (get_tokens b now).2 ∧ (get_tokens b now).2.timestamp ≤ now := by
  obtain ⟨h0, h1, h2⟩ := hinv
  unfold get_tokens BucketInv
  split
  · refine ⟨⟨?_, ?_, h2⟩, le_refl now⟩
    · have hd : 0 ≤ b.fill_rate * (now - b.timestamp) :=
        mul_nonneg h2 (by linarith)
      simp only [le_min_iff]
      constructor
      · linarith
      · linarith
    · exact min_le_left _ _
  · exact ⟨⟨h0, h1, h2⟩, ht⟩

theorem consume_inv (b : TokenBucket) (n now : ℚ) (hinv : BucketInv b)
    (ht : b.timestamp ≤ now) (hn : 0 ≤ n) :
    BucketInv (consume b n now).2 ∧ (consume b n now).2.timestamp ≤ now := by
  obtain ⟨⟨g0, g1, g2⟩, gt⟩ := get_tokens_inv b now hinv ht
  unfold consume
  dsimp only
  split_ifs with h
  · rw [get_tokens_fst] at h
    refine ⟨⟨?_, ?_, g2⟩, gt⟩
    · show 0 ≤ (get_tokens b now).2._tokens - n
      linarith
    · show (get_tokens b now).2._tokens - n ≤ (get_tokens b now).2.capacity
      linarith
  · exact ⟨⟨g0, g1, g2⟩, gt⟩

theorem runOps_inv (ops : List (ℚ × BucketOp)) (b : TokenBucket) (t0 : ℚ)
    (hinv : BucketInv b) (ht : b.timestamp ≤ t0) (hv : ValidFrom t0 ops) :
    BucketInv (runOps b ops) := by
  induction ops generalizing b t0 with
  | nil => exact hinv
  | cons p rest ih =>
    obtain ⟨now, op⟩ := p
    obtain ⟨hle, hop, hrest⟩ := hv
    cases op with
    | consumeOp n =>
      obtain ⟨hinv', ht'⟩ := consume_inv b n now hinv (le_trans ht hle) hop
      exact ih _ now hinv' ht' hrest
    | readOp =>
      obtain ⟨hinv', ht'⟩ := get_tokens_inv b now hinv (le_trans ht hle)
      exact ih _ now hinv' ht' hrest

/-! ## Supporting definitions for the claim theorems -/

/-- A depth-4 payload mixing every supported value kind, used to witness the
round-trip law. -/
def samplePairs : List (List Nat × MValue) :=
  [([0x61], .int 1), ([0x62], .str [0x68, 0x69]), ([0x63], .int (-1000)),
   ([0x64], .float64 0x3FE0000000000000), ([0x65], .bool true), ([0x66], .nil),
   ([0x6e], .map [([0x6b], .arr [.int 200, .str [0x78],
     .map [([0x64], .int (-5))], .bool false, .nil, .float64 1])])]

/-- An `AdapterNode` with an external message processor supplied. -/
def nodeEim : AdapterNode Nat := { hasExternalProcessor := true }

/-- A payload addressed to extension identity `"eim"`. -/
def pEim : DPayload := [("extension_id", .str "eim")]

/-- A payload addressed to a different extension identity. -/
def pOther : DPayload := [("extension_id", .str "other")]

/-- The registry after registering handlers `1, 2` under `"from_scratch"` and
`3` under `"all"`. -/
def r2 : Registry Nat :=
  (add_handler (add_handler (add_handler (initHandlers Nat) true 1 "from_scratch").1
    true 2 "from_scratch").1 true 3 "all").1

/-- A node carrying the `r2` registry (no external processor). -/
def nodeR2 : AdapterNode Nat := { handlers := r2 }

/-- Topic frames of the sends among a list of wire effects. -/
def sentTopics (es : List WireEffect) : List String :=
  es.filterMap (fun e =>
    match e with
    | .sendMultipart t _ => some t
    | _ => none)

theorem dget_dset (p : DPayload) (k : String) (v : DVal) :
    dget (dset p k v) k = some v := by
  induction p with
  | nil => simp [dset, dget]
  | cons q rest ih =>
    obtain ⟨k', v'⟩ := q
    by_cases h : k' = k <;> simp [dset, dget, h, ih]

theorem regLookup_none {H : Type} (r : Registry H) (ty : String)
    (h : ty ∉ r.map Prod.fst) : regLookup r ty = none := by
  induction r with
  | nil => rfl
  | cons q rest ih =>
    obtain ⟨k, hs⟩ := q
    simp only [List.map_cons, List.mem_cons] at h
    push_neg at h
    show (if k = ty then some hs else regLookup rest ty) = none
    rw [if_neg (fun e => h.1 e.symm)]
    exact ih h.2

/-- A fresh bucket with capacity 80 and fill rate 0.5 constructed at time 0. -/
def freshBucket : TokenBucket := TokenBucket.init 80 (1/2) 0

/-- The bucket after `consume(70)` at time 100: the read inside `consume` took
the skip branch (count at capacity), so the deduction left `timestamp` at 0. -/
def staleBucket : TokenBucket := (consume freshBucket 70 100).2

/-! ## The claims -/

/-- C1 (corrected — counterexample): the claim says a malformed inbound
two-frame message does not terminate the receive loop and the next well-formed
message is still processed.  On the code, only `zmq.error.Again` is caught:
with a schedule holding a malformed message followed by a well-formed one, the
loop exits with the decode exception and handles nothing. -/
theorem claim1_counterexample :
    receive_loop ⟨true, true, []⟩
      [.msg [[0x74], [0xc1]], .msg [[0x74], [0x81, 0xa1, 0x61, 0x01]]]
      = .exited ⟨true, true, []⟩ (some .unpackError)
    ∧ (receive_loop ⟨true, true, []⟩
      [.msg [[0x74], [0xc1]], .msg [[0x74], [0x81, 0xa1, 0x61, 0x01]]]).state.handled
      = [] :=
  ⟨rfl, rfl⟩

/-- C1 (amended): on a running node, an inbound two-frame message whose payload
bytes fail to decode raises out of the loop body: the loop terminates at once
with the decode exception, the message is not handled, and no later event of
the schedule is processed. -/
theorem claim1_amended (st : MsgNodeState) (t p : List Nat)
    (extra : List (List Nat)) (evs : List RecvEvent)
    (hr : st.running = true) (hp : unpackb p = none) :
    receive_loop st (.msg (t :: p :: extra) :: evs)
      = .exited st (some .unpackError) := by
  simp [receive_loop, hr, hp]

/-- C1 witness: the amended statement at a concrete malformed frame. -/
theorem claim1_witness :
    receive_loop ⟨true, true, []⟩ [.msg [[0x74], [0xc1]]]
      = .exited ⟨true, true, []⟩ (some .unpackError) :=
  claim1_amended ⟨true, true, []⟩ [0x74] [0xc1] [] [] rfl rfl

/-- C2 (corrected — counterexample): the claim says dispatching a
`"from_scratch"` message on a node with handlers `1, 2` under
`"from_scratch"` and `3` under `"all"` invokes exactly `[1, 2, 3]`.  On the
code, `message_handle` never consults the registry (that block is commented
out), so the dispatched registry handlers are `[]`, not `[1, 2, 3]`. -/
theorem claim2_counterexample :
    registryCalls (message_handle nodeR2 SCRATCH_TOPIC pEim) = []
    ∧ ([] : List Nat) ≠ [1, 2, 3] :=
  ⟨rfl, by decide⟩

/-- C2 (amended): the registration-order law holds at the registry level —
`get_handlers "from_scratch"` on the `r2` registry is `[1, 2, 3]` and
`get_handlers` for any other class key is `[3]` — but `message_handle`
invokes no registry handler on any message. -/
theorem claim2_amended :
    get_handlers r2 "from_scratch" = [1, 2, 3]
    ∧ (∀ ty : String, ty ≠ "from_scratch" → ty ≠ "all" →
      get_handlers r2 ty = [3])
    ∧ (∀ (n : AdapterNode Nat) (topic : String) (payload : DPayload),
      registryCalls (message_handle n topic payload) = []) := by
  refine ⟨rfl, ?_, ?_⟩
  · intro ty h1 h2
    have hr : r2 = [("notification", []), ("from_scratch", [1, 2]),
        ("from_adapter", []), ("current_extension", []), ("all", [3])] := rfl
    rw [hr]
    simp only [get_handlers, regLookup]
    split_ifs <;> simp_all
  · intro n topic payload
    unfold message_handle registryCalls
    split_ifs <;> rfl

/-- C2 witness: the amended statement evaluated at the key `"notification"`. -/
theorem claim2_witness :
    get_handlers r2 "from_scratch" = [1, 2, 3]
    ∧ get_handlers r2 "notification" = [3] :=
  ⟨claim2_amended.1, claim2_amended.2.1 "notification" (by decide) (by decide)⟩

/-- C3 (confirmed): for every payload mapping the packer accepts — nested
values of all supported kinds included — decoding the produced bytes yields
the original payload. -/
theorem claim3_roundtrip (pairs : List (List Nat × MValue)) (out : List Nat)
    (hp : packb (.map pairs) = some out) : unpackb out = some (.map pairs) :=
  unpackb_packb (.map pairs) out hp

/-- C3 witness: the round-trip at a depth-4 payload mixing all value kinds. -/
theorem claim3_witness :
    unpackb ((packb (.map samplePairs)).getD []) = some (.map samplePairs) :=
  claim3_roundtrip samplePairs ((packb (.map samplePairs)).getD []) rfl

/-- C4 (confirmed): with node identity `"eim"`, a scratch-topic message with
payload identity `"eim"` reaches `extension_message_handle` while the same
message with identity `"other"` does not; the same filter governs the operate
topic and `exit_message_handle`; and every message reaches the external
processor whenever one was supplied at construction. -/
theorem claim4_identity_routing :
    message_handle nodeEim SCRATCH_TOPIC pEim
      = [.extensionMessageHandle SCRATCH_TOPIC pEim,
         .externalProcessor SCRATCH_TOPIC pEim]
    ∧ message_handle nodeEim SCRATCH_TOPIC pOther
      = [.externalProcessor SCRATCH_TOPIC pOther]
    ∧ message_handle nodeEim EXTENSIONS_OPERATE_TOPIC pEim
      = [.exitMessageHandle EXTENSIONS_OPERATE_TOPIC pEim,
         .externalProcessor EXTENSIONS_OPERATE_TOPIC pEim]
    ∧ message_handle nodeEim EXTENSIONS_OPERATE_TOPIC pOther
      = [.externalProcessor EXTENSIONS_OPERATE_TOPIC pOther]
    ∧ ∀ (m : AdapterNode Nat) (topic : String) (payload : DPayload),
        m.hasExternalProcessor = true →
        DispatchCall.externalProcessor topic payload
          ∈ message_handle m topic payload := by
  refine ⟨rfl, rfl, rfl, rfl, ?_⟩
  intro m topic payload h
  simp [message_handle, h]

/-- C4 witness: the unconditional external-processor conjunct at a concrete
topic and payload. -/
theorem claim4_witness :
    DispatchCall.externalProcessor "t" ([] : DPayload)
      ∈ message_handle nodeEim "t" [] :=
  claim4_identity_routing.2.2.2.2 nodeEim "t" [] rfl

/-- C5 (confirmed): a non-string topic makes both `set_subscriber_topic` and
`publish_payload` raise `TypeError` with no wire effect performed. -/
theorem claim5_invalid_topic (t : PyObj) (h : ∀ s, t ≠ PyObj.str s) :
    set_subscriber_topic t = ([], some .typeError)
    ∧ ∀ p, publish_payload p t = ([], some .typeError) := by
  cases t with
  | str s => exact absurd rfl (h s)
  | int n => exact ⟨rfl, fun _ => rfl⟩
  | bool b => exact ⟨rfl, fun _ => rfl⟩
  | none_ => exact ⟨rfl, fun _ => rfl⟩
  | dict p => exact ⟨rfl, fun _ => rfl⟩

/-- C5 witness: both operations at the integer topic `5`. -/
theorem claim5_witness :
    set_subscriber_topic (.int 5) = ([], some .typeError)
    ∧ publish_payload [] (.int 5) = ([], some .typeError) :=
  ⟨(claim5_invalid_topic (.int 5) (fun s e => by cases e)).1,
   (claim5_invalid_topic (.int 5) (fun s e => by cases e)).2 []⟩

/-- C6 (confirmed): `publish` defaults an absent topic field to
`ADAPTER_TOPIC`; stamps a payload lacking an identity field with the node's
identity before the send; raises (`AttributeError`) when the payload is
missing; and on every non-raising call performs exactly one wire send. -/
theorem claim6_publish :
    (∀ (n : AdapterNode Nat) (p : DPayload),
      sentTopics (publish n { topic := none, payload := some p }).1
        = [ADAPTER_TOPIC])
    ∧ (∀ (n : AdapterNode Nat) (p : DPayload), dget p "extension_id" = none →
      (publish n { topic := none, payload := some p }).1
        = [.sendMultipart ADAPTER_TOPIC
            (dset p "extension_id" (.str n.EXTENSION_ID))]
      ∧ dget (dset p "extension_id" (.str n.EXTENSION_ID)) "extension_id"
        = some (.str n.EXTENSION_ID))
    ∧ (∀ (n : AdapterNode Nat) (t : Option PyObj),
      publish n { topic := t, payload := none } = ([], some .attributeError))
    ∧ (∀ (n : AdapterNode Nat) (m : PubMessage) (p : DPayload),
      m.payload = some p → (publish n m).2 = none →
      (publish n m).1.length = 1) := by
  refine ⟨?_, ?_, ?_, ?_⟩
  · intro n p
    by_cases h : dgetTruthy (dget p "extension_id") <;>
      simp [publish, publish_payload, sentTopics, h]
  · intro n p h
    refine ⟨?_, dget_dset p "extension_id" (.str n.EXTENSION_ID)⟩
    simp [publish, publish_payload, h, dgetTruthy]
  · intro n t
    rfl
  · intro n m p hp hok
    obtain ⟨mt, mp⟩ := m
    simp only at hp
    subst hp
    cases mt with
    | none =>
      by_cases h : dgetTruthy (dget p "extension_id") <;>
        simp [publish, publish_payload, h]
    | some t =>
      by_cases ht : pyTruthy t
      · cases t with
        | str s =>
          by_cases h : dgetTruthy (dget p "extension_id") <;>
            simp [publish, publish_payload, h, ht]
        | int k =>
          exact absurd hok (by simp [publish, publish_payload, ht])
        | bool b =>
          exact absurd hok (by simp [publish, publish_payload, ht])
        | none_ =>
          exact absurd hok (by simp [publish, publish_payload, ht])
        | dict q =>
          exact absurd hok (by simp [publish, publish_payload, ht])
      · by_cases h : dgetTruthy (dget p "extension_id") <;>
          simp [publish, publish_payload, h, ht]

/-- C6 witness: the three non-raising conjuncts at concrete inputs and the
raising one at a missing payload. -/
theorem claim6_witness :
    sentTopics (publish nodeEim { topic := none, payload := some [] }).1
      = [ADAPTER_TOPIC]
    ∧ (publish nodeEim { topic := none, payload := some [] }).1
      = [.sendMultipart ADAPTER_TOPIC [("extension_id", .str "eim")]]
    ∧ publish nodeEim { topic := none, payload := none }
      = ([], some .attributeError)
    ∧ (publish nodeEim { topic := none, payload := some [] }).1.length = 1 :=
  ⟨claim6_publish.1 nodeEim [],
   (claim6_publish.2.1 nodeEim [] rfl).1,
   claim6_publish.2.2.1 nodeEim none,
   claim6_publish.2.2.2 nodeEim { topic := none, payload := some [] } [] rfl rfl⟩

/-- C7 (confirmed): `consume` first reads the (lazily refilled) count; when
the request is within the available count it deducts and returns `True`,
otherwise it returns `False` leaving the state exactly as the read left it
(no deduction); concretely, on a fresh bucket of capacity 80 and fill rate
0.5, `consume(10)` succeeds leaving 70 tokens and `consume(90)` fails
leaving the bucket unchanged at 80. -/
theorem claim7_consume :
    (∀ (b : TokenBucket) (n now : ℚ),
      (n ≤ (get_tokens b now).1 →
        consume b n now
          = (true, { (get_tokens b now).2 with
              _tokens := (get_tokens b now).2._tokens - n }))
      ∧ (¬ n ≤ (get_tokens b now).1 →
        consume b n now = (false, (get_tokens b now).2)))
    ∧ consume (TokenBucket.init 80 (1/2) 0) 10 0
      = (true, { capacity := 80, _tokens := 70, fill_rate := 1/2, timestamp := 0 })
    ∧ consume (TokenBucket.init 80 (1/2) 0) 90 0
      = (false, TokenBucket.init 80 (1/2) 0) := by
  refine ⟨?_, ?_, ?_⟩
  · intro b n now
    constructor
    · intro h
      unfold consume
      dsimp only
      rw [if_pos h]
    · intro h
      unfold consume
      dsimp only
      rw [if_neg h]
  · norm_num [consume, get_tokens, TokenBucket.init]
  · norm_num [consume, get_tokens, TokenBucket.init]

/-- C7 witness: the success branch of the general conjunct at the fresh
bucket. -/
theorem claim7_witness :
    consume (TokenBucket.init 80 (1/2) 0) 10 0
      = (true, { (get_tokens (TokenBucket.init 80 (1/2) 0) 0).2 with
          _tokens := (get_tokens (TokenBucket.init 80 (1/2) 0) 0).2._tokens - 10 }) :=
  (claim7_consume.1 (TokenBucket.init 80 (1/2) 0) 10 0).1
    (by norm_num [get_tokens, TokenBucket.init])

/-- C8 (corrected — counterexample): the claim says the amount refilled since
the last check equals `fill_rate × elapsed_seconds`, capped at capacity.  On
the code the elapsed time is measured from the stored `timestamp`, which a
read taken while the bucket is full does not advance: after `consume(70)` at
time 100 on a fresh bucket (capacity 80, rate 0.5, built at time 0), a read
at time 102 — 2 seconds after the last check — should by the claim yield
`min(80, 10 + 0.5 × 2) = 11` tokens, but the code refills from `timestamp = 0`
and yields 61. -/
theorem claim8_counterexample :
    (get_tokens staleBucket 102).1 = 61
    ∧ min staleBucket.capacity
        (staleBucket._tokens + staleBucket.fill_rate * (102 - 100)) = 11
    ∧ (61 : ℚ) ≠ 11 := by
  refine ⟨?_, ?_, by norm_num⟩
  · norm_num [staleBucket, freshBucket, consume, get_tokens, TokenBucket.init]
  · norm_num [staleBucket, freshBucket, consume, get_tokens, TokenBucket.init]

/-- C8 (amended): under nonnegative consume amounts and a nondecreasing
clock, the token count stays within `[0, capacity]` across every operation
sequence; and each read returns
`min(capacity, tokens + fill_rate × (now − timestamp))`, the elapsed time
being measured from the stored last-refill timestamp (which a read taken at
full capacity leaves in place), not from the last check. -/
theorem claim8_amended :
    (∀ (ops : List (ℚ × BucketOp)) (b : TokenBucket) (t0 : ℚ),
      BucketInv b → b.timestamp ≤ t0 → ValidFrom t0 ops →
      0 ≤ (runOps b ops)._tokens
        ∧ (runOps b ops)._tokens ≤ (runOps b ops).capacity)
    ∧ (∀ (b : TokenBucket) (now : ℚ), BucketInv b → b.timestamp ≤ now →
      (get_tokens b now).1
        = min b.capacity (b._tokens + b.fill_rate * (now - b.timestamp))) := by
  constructor
  · intro ops b t0 hinv ht hv
    obtain ⟨h1, h2, _⟩ := runOps_inv ops b t0 hinv ht hv
    exact ⟨h1, h2⟩
  · intro b now hinv ht
    obtain ⟨h0, h1, h2⟩ := hinv
    unfold get_tokens
    split_ifs with h
    · rfl
    · have he : b._tokens = b.capacity := le_antisymm h1 (not_lt.mp h)
      have hd : 0 ≤ b.fill_rate * (now - b.timestamp) :=
        mul_nonneg h2 (by linarith)
      show b._tokens = min b.capacity (b._tokens + b.fill_rate * (now - b.timestamp))
      rw [he, (min_eq_left (by linarith : b.capacity ≤ b.capacity + b.fill_rate * (now - b.timestamp)))]

/-- C8 witness: the amended statement at the fresh bucket and a one-read
schedule. -/
theorem claim8_witness :
    (0 ≤ (runOps freshBucket [(0, .readOp)])._tokens
      ∧ (runOps freshBucket [(0, .readOp)])._tokens
        ≤ (runOps freshBucket [(0, .readOp)]).capacity)
    ∧ (get_tokens freshBucket 0).1
      = min freshBucket.capacity
          (freshBucket._tokens + freshBucket.fill_rate * (0 - freshBucket.timestamp)) :=
  ⟨claim8_amended.1 [(0, .readOp)] freshBucket 0
      (by constructor
          · norm_num [freshBucket, TokenBucket.init]
          · constructor <;> norm_num [freshBucket, TokenBucket.init])
      (by norm_num [freshBucket, TokenBucket.init])
      ⟨le_refl 0, trivial, trivial⟩,
   claim8_amended.2 freshBucket 0
      (by constructor
          · norm_num [freshBucket, TokenBucket.init]
          · constructor <;> norm_num [freshBucket, TokenBucket.init])
      (by norm_num [freshBucket, TokenBucket.init])⟩

/-- C9 (corrected — counterexample): the claim says a cancellation interrupt
during the idle sleep shuts the node down and the loop terminates without the
interrupt being re-raised.  On the code, `clean_up` runs and the loop
terminates, but the handler ends in `raise KeyboardInterrupt`: the exit
carries the re-raised interrupt rather than a clean return. -/
theorem claim9_counterexample :
    receive_loop ⟨true, true, []⟩ [.againInterrupt]
      = .exited ⟨false, false, []⟩ (some .keyboardInterrupt)
    ∧ some PyExc.keyboardInterrupt ≠ (none : Option PyExc) :=
  ⟨rfl, Option.some_ne_none _⟩

/-- C9 (amended): a cancellation interrupt during the idle branch performs the
orderly shutdown (running flag cleared, channels closed) and terminates the
loop, but the `KeyboardInterrupt` is re-raised past the loop boundary. -/
theorem claim9_amended (st : MsgNodeState) (evs : List RecvEvent)
    (hr : st.running = true) :
    receive_loop st (.againInterrupt :: evs)
      = .exited (clean_up st) (some .keyboardInterrupt)
    ∧ (clean_up st).running = false ∧ (clean_up st).channelsOpen = false := by
  refine ⟨?_, rfl, rfl⟩
  simp [receive_loop, hr]

/-- C9 witness: the amended statement at a concrete running node. -/
theorem claim9_witness :
    receive_loop ⟨true, true, []⟩ [.againInterrupt]
      = .exited (clean_up ⟨true, true, []⟩) (some .keyboardInterrupt)
    ∧ (clean_up ⟨true, true, []⟩).running = false
    ∧ (clean_up ⟨true, true, []⟩).channelsOpen = false :=
  claim9_amended ⟨true, true, []⟩ [] rfl

/-- C10 (confirmed): on a registry with the fixed key set (the four message
classes plus `"all"`), `add_handler` with a callable handler and a key
outside that set raises `KeyError` leaving the registry unchanged, while
`get_handlers` with the same key does not fail and returns exactly the
catch-all handlers. -/
theorem claim10_unknown_key (r : Registry Nat) (f : Nat) (ty : String)
    (hk : r.map Prod.fst = message_types ++ ["all"])
    (hn : ty ∉ message_types ++ ["all"]) :
    add_handler r true f ty = (r, some .keyError)
    ∧ get_handlers r ty = (regLookup r "all").getD [] := by
  have h : regLookup r ty = none := regLookup_none r ty (by rw [hk]; exact hn)
  constructor
  · simp [add_handler, h]
  · simp [get_handlers, h]

/-- C10 witness: the statement at the freshly initialised registry and the
unknown key `"bogus"`. -/
theorem claim10_witness :
    add_handler (initHandlers Nat) true 7 "bogus"
      = (initHandlers Nat, some .keyError)
    ∧ get_handlers (initHandlers Nat) "bogus"
      = (regLookup (initHandlers Nat) "all").getD [] :=
  claim10_unknown_key (initHandlers Nat) 7 "bogus" rfl (by decide)

end CodelabAdapter
